import Mathlib

/-!
Verification of the TinyLisp toolchain (tinylisp_v0.py compiler and vm.py
stack VM) against its specification.  The Python sources are shallowly
embedded: Python values become the inductive `Val`, the regex tokenizer
becomes `tokLoop`, the recursive-descent reader becomes `parse_one` and
friends, the compiler class `C` becomes `compile_form` over an explicit
`CState`, and the VM dispatch loop becomes `step` / `runLoop`.

Recursive Python functions are modelled with an explicit fuel argument,
mirroring CPython's recursion limit (the spec itself notes "fuel may be
required" for deep inputs); canonical fuel values are chosen so that they
never run out on inputs the Python code handles.  The embedding covers the
ASCII fragment of the language: Python's Unicode whitespace and digit
classes beyond ASCII are outside the modelled fragment, as noted at the
relevant definitions.
-/

set_option maxHeartbeats 4000000

/-- Universal runtime value of the toolchain: Python `int`, `str`, the
frozen dataclass `Sym`, and `list`.  The same Python objects serve both as
the reader's AST and as VM runtime values, so a single type models both. -/
inductive Val where
  | int (n : Int)
  | str (s : String)
  | sym (name : String)
  | list (xs : List Val)

/-- Token kinds produced by `tokenize` in tinylisp_v0.py / `tokenize_sexpr`
in vm.py (the two functions are textually identical; one model serves
both).  INT carries the parsed integer, STR the decoded string literal. -/
inductive Tok where
  | lp
  | rp
  | int (n : Int)
  | str (s : String)
  | sym (s : String)
  | eof

/-- ASCII fragment of Python's regex class `\s`.  Python also accepts
Unicode whitespace, which is outside the modelled fragment. -/
def isPySpace (c : Char) : Bool :=
  c == ' ' || c == '\t' || c == '\n' || c == '\r' || c == '\x0b' || c == '\x0c'

/-- First character of the SYM rule: `[A-Za-z_+\-*/<>=!?]`. -/
def isSymStart (c : Char) : Bool :=
  c.isAlpha || c == '_' || c == '+' || c == '-' || c == '*' || c == '/' ||
  c == '<' || c == '>' || c == '=' || c == '!' || c == '?'

/-- Continuation characters of the SYM rule: `[A-Za-z0-9_+\-*/<>=!?]`. -/
def isSymCont (c : Char) : Bool :=
  isSymStart c || c.isDigit

/-- Scan the body of a string literal after the opening quote, per the
regex `"([^"\\]|\\.)*"`.  Returns the raw body (escapes intact) and the
remainder after the closing quote; `none` when the regex cannot match
(unterminated literal, or a backslash before a newline or at EOF, since
the regex `.` does not match a newline). -/
def strScan : List Char → Option (List Char × List Char)
  | [] => none
  | '"' :: r => some ([], r)
  | '\\' :: c :: r =>
    if c = '\n' then none
    else (strScan r).map (fun p => ('\\' :: c :: p.1, p.2))
  | ['\\'] => none
  | c :: r => (strScan r).map (fun p => (c :: p.1, p.2))

/-- Hex digit value, for the `\xNN` / `\uNNNN` escapes. -/
def hexVal (c : Char) : Option Nat :=
  if c.isDigit then some (c.toNat - 48)
  else if 'a' ≤ c && c ≤ 'f' then some (c.toNat - 87)
  else if 'A' ≤ c && c ≤ 'F' then some (c.toNat - 55)
  else none

/-- Model of `_unescape_string`'s `bytes(body).decode("unicode_escape")`
on the commonly used escapes; unknown escapes are kept verbatim, as CPython
does.  Invalid `\xNN`/`\uNNNN` hex (which CPython rejects with a decode
error) and octal escapes beyond `\0` are outside the modelled fragment. -/
def pyUnescape : List Char → List Char
  | [] => []
  | '\\' :: 'n' :: r => '\n' :: pyUnescape r
  | '\\' :: 't' :: r => '\t' :: pyUnescape r
  | '\\' :: 'r' :: r => '\r' :: pyUnescape r
  | '\\' :: 'b' :: r => '\x08' :: pyUnescape r
  | '\\' :: 'f' :: r => '\x0c' :: pyUnescape r
  | '\\' :: 'v' :: r => '\x0b' :: pyUnescape r
  | '\\' :: 'a' :: r => '\x07' :: pyUnescape r
  | '\\' :: '0' :: r => '\x00' :: pyUnescape r
  | '\\' :: '\\' :: r => '\\' :: pyUnescape r
  | '\\' :: '\'' :: r => '\'' :: pyUnescape r
  | '\\' :: '"' :: r => '"' :: pyUnescape r
  | '\\' :: 'x' :: h1 :: h2 :: r =>
    (match hexVal h1, hexVal h2 with
     | some a, some b => Char.ofNat (16 * a + b)
     | _, _ => 'x') :: pyUnescape r
  | '\\' :: 'u' :: h1 :: h2 :: h3 :: h4 :: r =>
    (match hexVal h1, hexVal h2, hexVal h3, hexVal h4 with
     | some a, some b, some c, some d => Char.ofNat (4096 * a + 256 * b + 16 * c + d)
     | _, _, _, _ => 'u') :: pyUnescape r
  | '\\' :: c :: r => '\\' :: c :: pyUnescape r
  | c :: r => c :: pyUnescape r

/-- Decimal digit accumulation, modelling Python's `int(...)` on a digit
string. -/
def digitsToNat (acc : Nat) : List Char → Nat
  | [] => acc
  | c :: r => digitsToNat (acc * 10 + (c.toNat - 48)) r

/-- Result of the tokenizer loop: a token list, a syntax error carrying the
unconsumed remainder (Python reports position `i`, recoverable as the
original length minus the remainder's length), or fuel exhaustion (the
canonical fuel `length + 1` never runs out, as every iteration consumes at
least one character). -/
inductive LexRes where
  | toks (ts : List Tok)
  | synErr (rest : List Char)
  | fuelOut

/-- Prepend a freshly matched token to the result of tokenizing the rest. -/
def LexRes.consTok (t : Tok) : LexRes → LexRes
  | .toks ts => .toks (t :: ts)
  | r => r

/-- One model of the `while i < len(src)` loop shared by `tokenize` in
tinylisp_v0.py and `tokenize_sexpr` in vm.py.  At each iteration the regex
`\s*(?:COMMENT|LP|RP|STR|INT|SYM)` must match at the current position: the
maximal whitespace run is skipped and one of the alternatives must follow,
otherwise the whole match fails and Python raises SyntaxError — in
particular a whitespace run that reaches EOF makes the match fail. -/
def tokLoop : Nat → List Char → LexRes
  | _, [] => .toks [.eof]
  | 0, _ :: _ => .fuelOut
  | fuel + 1, c0 :: cs0 =>
    match List.dropWhile isPySpace (c0 :: cs0) with
    | [] => .synErr (c0 :: cs0)
    | ';' :: ds =>
      tokLoop fuel (List.dropWhile (fun c => c ≠ '\n') ds)
    | '(' :: ds => (tokLoop fuel ds).consTok .lp
    | ')' :: ds => (tokLoop fuel ds).consTok .rp
    | '"' :: ds =>
      match strScan ds with
      | some (body, ds2) =>
        (tokLoop fuel ds2).consTok (.str (String.mk (pyUnescape body)))
      | none => .synErr (c0 :: cs0)
    | c :: ds =>
      if c.isDigit then
        (tokLoop fuel (List.dropWhile Char.isDigit (c :: ds))).consTok
          (.int (Int.ofNat (digitsToNat 0 (List.takeWhile Char.isDigit (c :: ds)))))
      else if c = '-' && (match ds with | d :: _ => d.isDigit | [] => false) then
        (tokLoop fuel (List.dropWhile Char.isDigit ds)).consTok
          (.int (-(Int.ofNat (digitsToNat 0 (List.takeWhile Char.isDigit ds)))))
      else if isSymStart c then
        (tokLoop fuel (List.dropWhile isSymCont ds)).consTok
          (.sym (String.mk (c :: List.takeWhile isSymCont ds)))
      else .synErr (c0 :: cs0)

/-- `tokenize(src)`: run the loop with always-sufficient fuel and render
the SyntaxError message (the `repr`-quoting of the 30-character slice in
the Python message is simplified to the raw slice). -/
def tokenize (src : String) : Except String (List Tok) :=
  match tokLoop (src.data.length + 1) src.data with
  | .toks ts => .ok ts
  | .synErr rest =>
    .error ("Unexpected character at " ++ Nat.repr (src.data.length - rest.length)
      ++ ": " ++ String.mk (rest.take 30))
  | .fuelOut => .error "RecursionError"

/-! ## Reader (`parse_sexprs`)

Recursive descent over the token list, modelling `parse_one` and the two
`while` loops.  Fuel models CPython's recursion limit; the canonical fuel
`2 * length + 4` suffices for every token list, since along any chain of
nested calls at most two calls separate successive token consumptions. -/

mutual

/-- `parse_one`: parse a single form.  At term position `RP` and `EOF` hit
the final `raise SyntaxError(f"Bad token: {t}")`; an exhausted token list
would be an IndexError in Python (unreachable, as the list ends in EOF). -/
def parse_one : Nat → List Tok → Except String (Val × List Tok)
  | 0, _ => .error "RecursionError"
  | _ + 1, .int n :: r => .ok (.int n, r)
  | _ + 1, .str s :: r => .ok (.str s, r)
  | _ + 1, .sym s :: r => .ok (.sym s, r)
  | fuel + 1, .lp :: r => do
    let (xs, r2) ← parse_list fuel r
    .ok (.list xs, r2)
  | _ + 1, .rp :: _ => .error "Bad token: RP"
  | _ + 1, .eof :: _ => .error "Bad token: EOF"
  | _ + 1, [] => .error "list index out of range"

/-- The `while peek != RP` loop inside `parse_one`'s LP branch: collect
forms until the closing paren; EOF first means an unclosed paren (message
quoting simplified). -/
def parse_list : Nat → List Tok → Except String (List Val × List Tok)
  | 0, _ => .error "RecursionError"
  | _ + 1, .rp :: r => .ok ([], r)
  | _ + 1, .eof :: _ => .error "Unclosed ("
  | _ + 1, [] => .error "list index out of range"
  | fuel + 1, ts => do
    let (x, r) ← parse_one fuel ts
    let (xs, r2) ← parse_list fuel r
    .ok (x :: xs, r2)

end

/-- The top-level `while peek != EOF` loop of `parse_sexprs`. -/
def parse_forms : Nat → List Tok → Except String (List Val)
  | 0, _ => .error "RecursionError"
  | _ + 1, .eof :: _ => .ok []
  | _ + 1, [] => .error "list index out of range"
  | fuel + 1, ts => do
    let (x, r) ← parse_one fuel ts
    let xs ← parse_forms fuel r
    .ok (x :: xs)

/-- `parse_sexprs(src)` as in tinylisp_v0.py and vm.py (identical code). -/
def parse_sexprs (src : String) : Except String (List Val) := do
  let toks ← tokenize src
  parse_forms (2 * toks.length + 4) toks

/-! ## Bytecode instructions and their textual rendering

The Python compiler emits instruction *strings* ("JZ ELSE3", ...) and the
VM load phase splits each line back into tokens.  The embedding keeps the
instructions structured and renders them with `render`, which produces
exactly the emitted line for every instruction the compiler produces. -/

/-- One bytecode instruction (the opcode table of §4.3).  `pushstr`
carries the decoded string; rendering JSON-encodes it as the compiler
does, and the VM's `json.loads` of that literal recovers the string. -/
inductive Instr where
  | push (n : Int)
  | pushstr (s : String)
  | load (x : String)
  | store (x : String)
  | add
  | sub
  | mul
  | div
  | lt
  | eq
  | print
  | label (l : String)
  | jmp (l : String)
  | jz (l : String)
  | defun (f : String) (ps : List String)
  | call (f : String) (argc : Nat)
  | callprim (p : String) (argc : Nat)
  | ret

/-- Lower-case hex digit. -/
def hexDigit (n : Nat) : Char :=
  if n < 10 then Char.ofNat (48 + n) else Char.ofNat (97 + (n - 10))

/-- `\uNNNN` escape used by `json.dumps` for control and non-ASCII
characters (`ensure_ascii`); code points above the BMP (surrogate pairs)
are outside the modelled fragment. -/
def uEscape (n : Nat) : String :=
  "\\u" ++ String.mk [hexDigit (n / 4096 % 16), hexDigit (n / 256 % 16),
    hexDigit (n / 16 % 16), hexDigit (n % 16)]

/-- Per-character escaping of `json.dumps` on strings. -/
def jsonEscapeChar (c : Char) : String :=
  if c = '"' then "\\\""
  else if c = '\\' then "\\\\"
  else if c = '\n' then "\\n"
  else if c = '\t' then "\\t"
  else if c = '\r' then "\\r"
  else if c = '\x08' then "\\b"
  else if c = '\x0c' then "\\f"
  else if c.toNat < 32 then uEscape c.toNat
  else if c.toNat < 127 then String.singleton c
  else uEscape c.toNat

/-- `json.dumps` on a string, as used for `PUSHSTR` operands. -/
def json_dumps (s : String) : String :=
  "\"" ++ String.join (s.data.map jsonEscapeChar) ++ "\""

/-- The textual line the Python compiler emits for each instruction. -/
def render : Instr → String
  | .push n => "PUSH " ++ toString n
  | .pushstr s => "PUSHSTR " ++ json_dumps s
  | .load x => "LOAD " ++ x
  | .store x => "STORE " ++ x
  | .add => "ADD"
  | .sub => "SUB"
  | .mul => "MUL"
  | .div => "DIV"
  | .lt => "LT"
  | .eq => "EQ"
  | .print => "PRINT"
  | .label l => "LABEL " ++ l
  | .jmp l => "JMP " ++ l
  | .jz l => "JZ " ++ l
  | .defun f ps => "DEFUN " ++ String.intercalate " " (f :: ps)
  | .call f argc => "CALL " ++ f ++ " " ++ Nat.repr argc
  | .callprim p argc => "CALLPRIM " ++ p ++ " " ++ Nat.repr argc
  | .ret => "RET"

/-! ## Compiler (class `C` of tinylisp_v0.py)

The mutable fields `self.bc` and `self.label_id` become the explicit state
`CState`; a fresh instance (`C()`) is `C_init`.  `compile_form`'s Python
recursion carries fuel; `sizeOf` of the form always exceeds the recursion
depth, so the canonical calls never exhaust it. -/

/-- Compiler state: the emitted instruction list and the gensym counter. -/
structure CState where
  bc : List Instr
  label_id : Nat

/-- A fresh compiler instance: empty bytecode, label counter 0. -/
def C_init : CState := ⟨[], 0⟩

/-- `self.prim_set` — the closed primitive-name set of the compiler, which
coincides with the key set of the VM's `PRIMS` table. -/
def prim_set : List String :=
  ["read-all", "parse-sexprs", "emit", "gensym", "str-cat", "to-str",
   "sym", "sym-name", "sym-eq?", "int?", "sym?", "pair?", "null?", "str?",
   "json-dumps", "car", "cdr", "error"]

/-- `self.gensym(p)`: increment the counter, return `f"{p}{label_id}"`. -/
def gensym (s : CState) (p : String) : String × CState :=
  (p ++ Nat.repr (s.label_id + 1), { s with label_id := s.label_id + 1 })

/-- `self.emit(s)`: append one instruction. -/
def emit (s : CState) (i : Instr) : CState :=
  { s with bc := s.bc ++ [i] }

/-- The arithmetic/comparison operator table of `compile_form`. -/
def binOp (name : String) : Option Instr :=
  if name = "+" then some .add
  else if name = "-" then some .sub
  else if name = "*" then some .mul
  else if name = "/" then some .div
  else if name = "<" then some .lt
  else if name = "==" then some .eq
  else none

mutual

/-- `C.compile_form`, lowering one form.  The branch order follows the
source: atoms, empty list, `begin`, `if`, `let`/`set`, `while`, binary
operators, `print`, then the call fallback, which rejects non-symbol
operators and otherwise dispatches on membership in `prim_set`. -/
def compile_form : Nat → CState → Val → Except String CState
  | 0, _, _ => .error "RecursionError"
  | _ + 1, s, .int n => .ok (emit s (.push n))
  | _ + 1, s, .str t => .ok (emit s (.pushstr t))
  | _ + 1, s, .sym x => .ok (emit s (.load x))
  | _ + 1, s, .list [] => .ok (emit s (.push 0))
  | fuel + 1, s, .list (op :: args) =>
    match op with
    | .sym name =>
      if name = "begin" then compile_seq fuel s args
      else if name = "if" then
        match args with
        | [cond, thn, els] => do
          let (l_else, s1) := gensym s "ELSE"
          let (l_end, s2) := gensym s1 "END"
          let s3 ← compile_form fuel s2 cond
          let s5 ← compile_form fuel (emit s3 (.jz l_else)) thn
          let s8 ← compile_form fuel (emit (emit s5 (.jmp l_end)) (.label l_else)) els
          .ok (emit s8 (.label l_end))
        | _ => .error "if: expected (if cond then else)"
      else if name = "let" || name = "set" then
        match args with
        | [.sym x, e] => do
          let s1 ← compile_form fuel s e
          .ok (emit s1 (.store x))
        | _ => .error "let/set: expected 2 args with symbol first"
      else if name = "while" then
        match args with
        | cond :: b1 :: brest => do
          let (top, s1) := gensym s "TOP"
          let (endl, s2) := gensym s1 "END"
          let s4 ← compile_form fuel (emit s2 (.label top)) cond
          let s6 ← compile_seq fuel (emit s4 (.jz endl)) (b1 :: brest)
          .ok (emit (emit (emit s6 (.jmp top)) (.label endl)) (.push 0))
        | _ => .error "while: expected (while cond body...)"
      else
        match binOp name with
        | some instr =>
          match args with
          | [a, b] => do
            let s1 ← compile_form fuel s a
            let s2 ← compile_form fuel s1 b
            .ok (emit s2 instr)
          | _ => .error "binop: expected 2 args"
        | none =>
          if name = "print" then
            match args with
            | [a] => do
              let s1 ← compile_form fuel s a
              .ok (emit (emit s1 .print) (.push 0))
            | _ => .error "print: expected 1 arg"
          else do
            let s1 ← compile_seq fuel s args
            if name ∈ prim_set then .ok (emit s1 (.callprim name args.length))
            else .ok (emit s1 (.call name args.length))
    | _ => .error "call: operator must be a symbol"

/-- The `for a in args: self.compile_form(a)` loops of `compile_form`. -/
def compile_seq : Nat → CState → List Val → Except String CState
  | _, s, [] => .ok s
  | 0, _, _ :: _ => .error "RecursionError"
  | fuel + 1, s, x :: r => do
    let s1 ← compile_form fuel s x
    compile_seq fuel s1 r

end

/-- `C.symname`: require a symbol, returning its name. -/
def symname : Val → Except String String
  | .sym n => .ok n
  | _ => .error "Expected symbol"

/-- `C.compile_define` on a top-level `(define (fname p...) body)`. -/
def compile_define (fuel : Nat) (s : CState) (form : Val) : Except String CState :=
  match form with
  | .list [_, sig, body] =>
    match sig with
    | .list (.sym fname :: ps) => do
      let params ← ps.mapM symname
      let s2 ← compile_form fuel (emit s (.defun fname params)) body
      .ok (emit s2 .ret)
    | _ => .error "define: function form only, e.g. (define (f x) body)"
  | _ => .error "define: expected (define (f args..) body)"

/-- The partition test of `compile_program`: a nonempty list headed by the
symbol `define`. -/
def isDefine (v : Val) : Bool :=
  match v with
  | .list (.sym n :: _) => n == "define"
  | _ => false

/-- `C.compile_program`: `JMP __START__`, then every define's body, then
`LABEL __START__`, the remaining top-level forms, and the `PUSH 0` / `RET`
epilogue.  Returns the emitted instruction list of the fresh instance. -/
def compile_program (fuel : Nat) (forms : List Val) : Except String (List Instr) := do
  let s0 := emit C_init (.jmp "__START__")
  let s1 ← (forms.filter (fun v => isDefine v)).foldlM (compile_define fuel) s0
  let s2 := emit s1 (.label "__START__")
  let s3 ← (forms.filter (fun v => !isDefine v)).foldlM (compile_form fuel) s2
  .ok (emit (emit s3 (.push 0)) .ret).bc

/-- Parse and compile a source string with a fresh compiler instance, as
`main` does.  The canonical fuel `2 * tokens + 4` exceeds the recursion
depth of `compile_form` on any form the reader can produce from those
tokens. -/
def compileSrc (src : String) : Except String (List Instr) := do
  let toks ← tokenize src
  let forms ← parse_forms (2 * toks.length + 4) toks
  compile_program (2 * toks.length + 4) forms

/-- The bytecode text `"\n".join(self.bc)` produced from a source string:
one compilation run, byte for byte. -/
def compileSrcText (src : String) : Except String String :=
  (compileSrc src).map (fun bc => String.intercalate "\n" (bc.map render))

/-! ## VM values as Python sees them: `str()`, `==`, `+` etc.

Value-level recursion carries fuel 1000, CPython's default recursion
limit; the RecursionError CPython raises on deeper values is outside the
modelled fragment. -/

/-- `repr()` of a value, used for elements when printing a list.  String
quoting is simplified to plain single quotes without inner escaping
(outside the modelled fragment). -/
def pyReprF : Nat → Val → String
  | _, .int n => toString n
  | _, .str s => "\x27" ++ s ++ "\x27"
  | _, .sym n => "Sym(" ++ n ++ ")"
  | 0, .list _ => ""
  | fuel + 1, .list xs =>
    "[" ++ String.intercalate ", " (xs.map (pyReprF fuel)) ++ "]"

/-- `str()` of a value: decimal for ints, the string itself, `Sym`'s
`__repr__`, and bracketed comma-separated element reprs for lists. -/
def pyStrF : Nat → Val → String
  | _, .int n => toString n
  | _, .str s => s
  | _, .sym n => "Sym(" ++ n ++ ")"
  | 0, .list _ => ""
  | fuel + 1, .list xs =>
    "[" ++ String.intercalate ", " (xs.map (pyReprF fuel)) ++ "]"

/-- `str()` with the canonical recursion-limit fuel. -/
def pyStr (v : Val) : String := pyStrF 1000 v

mutual

/-- Python `==` on values: same-type structural comparison, `False` across
different types (`0 == []` is `False`, etc.). -/
def pyEqF : Nat → Val → Val → Bool
  | _, .int a, .int b => a == b
  | _, .str a, .str b => a == b
  | _, .sym a, .sym b => a == b
  | 0, .list _, .list _ => false
  | fuel + 1, .list a, .list b => pyEqListF fuel a b
  | _, _, _ => false

/-- Elementwise list equality. -/
def pyEqListF : Nat → List Val → List Val → Bool
  | _, [], [] => true
  | 0, _ :: _, _ => false
  | fuel + 1, a :: as2, b :: bs => pyEqF fuel a b && pyEqListF fuel as2 bs
  | _, _, _ => false

end

/-- Python `==` with the canonical recursion-limit fuel. -/
def pyEq (a b : Val) : Bool := pyEqF 1000 a b

/-- Python `a + b` as used by `ADD` and `str-cat`: integer addition,
string and list concatenation; mixed types raise TypeError. -/
def pyAdd : Val → Val → Except String Val
  | .int a, .int b => .ok (.int (a + b))
  | .str a, .str b => .ok (.str (a ++ b))
  | .list a, .list b => .ok (.list (a ++ b))
  | _, _ => .error "TypeError: unsupported operand types for +"

/-- Python `a - b`: integers only. -/
def pySub : Val → Val → Except String Val
  | .int a, .int b => .ok (.int (a - b))
  | _, _ => .error "TypeError: unsupported operand types for -"

/-- Python `a * b` on integers; sequence repetition (`str * int` etc.) is
outside the modelled fragment. -/
def pyMul : Val → Val → Except String Val
  | .int a, .int b => .ok (.int (a * b))
  | _, _ => .error "TypeError: unsupported operand types for *"

/-- Python `a // b`: floor division, ZeroDivisionError on zero. -/
def pyDiv : Val → Val → Except String Val
  | .int a, .int b =>
    if b = 0 then .error "ZeroDivisionError: integer division or modulo by zero"
    else .ok (.int (Int.fdiv a b))
  | _, _ => .error "TypeError: unsupported operand types for //"

/-- Python `a < b` on integers and strings (code-point lexicographic);
list comparison is outside the modelled fragment, other mixes raise
TypeError. -/
def pyLt : Val → Val → Except String Bool
  | .int a, .int b => .ok (decide (a < b))
  | .str a, .str b => .ok (decide (a < b))
  | _, _ => .error "TypeError: unsupported operand types for <"

/-! ## VM state and load phase (`run` in vm.py) -/

/-- A frame: Python `dict[str, Any]`, modelled as an insertion-ordered
association list with first-match lookup and in-place overwrite. -/
abbrev Env := List (String × Val)

/-- Dictionary lookup. -/
def envGet : Env → String → Option Val
  | [], _ => none
  | (k, v) :: r, x => if k = x then some v else envGet r x

/-- Dictionary assignment `d[x] = v`: overwrite in place or append. -/
def envSet : Env → String → Val → Env
  | [], x, v => [(x, v)]
  | (k, w) :: r, x, v =>
    if k = x then (k, v) :: r else (k, w) :: envSet r x v

/-- The mutable locals of `run`.  In Python `frames[0]` *is* the
`globals_env` dict (one shared object, never popped); the embedding keeps
the global frame in `globals` and the frames pushed above it, top first,
in `callFrames`, which renders that aliasing exactly.  `stdout` collects
the lines `print(val)` writes; `out_lines` is the emit channel. -/
structure VMState where
  stack : List Val
  globals : Env
  callFrames : List Env
  callstack : List Nat
  ip : Nat
  gensym_id : Nat
  out_lines : List String
  stdout : List String

/-- The Python `frames` list, bottom first: the global frame, then the
call frames in push order. -/
def pyFrames (st : VMState) : List Env :=
  st.globals :: st.callFrames.reverse

/-- A loaded program: the decoded instruction list plus the string the
`read-all` primitive returns. -/
structure Program where
  prog : List Instr
  stdin_text : String

/-- The `labels` map built by the load-phase scan: index of the *last*
`LABEL name` (later dict entries overwrite earlier ones). -/
def labelIndex (prog : List Instr) (name : String) : Option Nat :=
  prog.enum.foldl
    (fun acc p =>
      match p.2 with
      | .label l => if l = name then some p.1 else acc
      | _ => acc)
    none

/-- The `fun_entry` / `fun_params` maps: entry is the index after the
last `DEFUN name ...`, params its operand list. -/
def funLookup (prog : List Instr) (name : String) : Option (Nat × List String) :=
  prog.enum.foldl
    (fun acc p =>
      match p.2 with
      | .defun f ps => if f = name then some (p.1 + 1, ps) else acc
      | _ => acc)
    none

/-- `frames[-1]`: the topmost call frame, or — through the Python aliasing
of `frames[0]` and `globals_env` — the global frame at top level. -/
def currentFrame (st : VMState) : Env :=
  match st.callFrames with
  | [] => st.globals
  | fr :: _ => fr

/-- `load_var`: current frame, then globals, else integer 0.  With no call
frame the current frame is the global frame itself (the Python aliasing),
so the first lookup already covers globals. -/
def load_var (st : VMState) (name : String) : Val :=
  match envGet (currentFrame st) name with
  | some v => v
  | none =>
    match envGet st.globals name with
    | some v => v
    | none => .int 0

/-- `store_var`: write into the current frame — the topmost call frame, or
the global frame at top level (Python writes through the same aliased
dict). -/
def store_var (st : VMState) (name : String) (v : Val) : VMState :=
  match st.callFrames with
  | [] => { st with globals := envSet st.globals name v }
  | fr :: rest => { st with callFrames := envSet fr name v :: rest }

/-! ## Primitive table (`PRIMS` in vm.py) -/

/-- The primitive bodies.  The Python closures mutate only the nonlocals
`gensym_id` and `out_lines` (and read `stdin_text`), so the model takes
and returns exactly those.  Where a Python primitive is duck-typed the
model fixes the types its callers use: `parse-sexprs`, `json-dumps`,
`emit` and `sym` take strings (CPython would accept other values and
misbehave or fail later); `car`/`cdr` support lists and strings.  A wrong
argument count raises TypeError as in CPython. -/
def applyPrim (stdin_text : String) (gid : Nat) (outl : List String) :
    String → List Val → Except String (Val × Nat × List String)
  | "read-all", [] => .ok (.str stdin_text, gid, outl)
  | "parse-sexprs", [.str s] =>
    (parse_sexprs s).map (fun forms => (.list forms, gid, outl))
  | "emit", [.str line] => .ok (.int 0, gid, outl ++ [line])
  | "gensym", [v] =>
    .ok (.str (pyStr v ++ Nat.repr (gid + 1)), gid + 1, outl)
  | "str-cat", [a, b] => (pyAdd a b).map (fun v => (v, gid, outl))
  | "to-str", [x] => .ok (.str (pyStr x), gid, outl)
  | "sym", [.str s] => .ok (.sym s, gid, outl)
  | "sym-name", [.sym n] => .ok (.str n, gid, outl)
  | "sym-name", [_] => .error "AttributeError: no attribute name"
  | "sym-eq?", [a, b] =>
    .ok (.int (match a, b with
      | .sym x, .sym y => if x = y then 1 else 0
      | _, _ => 0), gid, outl)
  | "int?", [x] => .ok (.int (match x with | .int _ => 1 | _ => 0), gid, outl)
  | "sym?", [x] => .ok (.int (match x with | .sym _ => 1 | _ => 0), gid, outl)
  | "pair?", [x] =>
    .ok (.int (match x with | .list (_ :: _) => 1 | _ => 0), gid, outl)
  | "null?", [x] => .ok (.int (if pyEq x (.list []) then 1 else 0), gid, outl)
  | "str?", [x] => .ok (.int (match x with | .str _ => 1 | _ => 0), gid, outl)
  | "json-dumps", [.str s] => .ok (.str (json_dumps s), gid, outl)
  | "car", [.list (x :: _)] => .ok (x, gid, outl)
  | "car", [.list []] => .error "IndexError: list index out of range"
  | "car", [.str s] =>
    (match s.data with
     | c :: _ => .ok (.str (String.singleton c), gid, outl)
     | [] => .error "IndexError: string index out of range")
  | "cdr", [.list (_ :: t)] => .ok (.list t, gid, outl)
  | "cdr", [.list []] => .ok (.list [], gid, outl)
  | "cdr", [.str s] => .ok (.str (String.mk (s.data.drop 1)), gid, outl)
  | "error", [.str m] => .error m
  | "error", [v] => .error (pyStr v)
  | _, _ => .error "TypeError: bad primitive arguments"

/-! ## Instruction dispatch -/

/-- Result of dispatching one instruction: continue at a successor state,
terminate (`ip` past the end, or `RET` with only the global frame), or
abort with a host error. -/
inductive StepRes where
  | next (st : VMState)
  | done (st : VMState)
  | err (msg : String)

/-- One iteration of the `while ip < len(prog)` dispatch loop of `run`. -/
def step (P : Program) (st : VMState) : StepRes :=
  match P.prog[st.ip]? with
  | none => .done st
  | some inst =>
    match inst with
    | .push n => .next { st with stack := .int n :: st.stack, ip := st.ip + 1 }
    | .pushstr s => .next { st with stack := .str s :: st.stack, ip := st.ip + 1 }
    | .load x => .next { st with stack := load_var st x :: st.stack, ip := st.ip + 1 }
    | .store x =>
      match st.stack with
      | [] => .err "IndexError: pop from empty list"
      | v :: rest => .next (store_var { st with stack := rest, ip := st.ip + 1 } x v)
    | .add =>
      match st.stack with
      | b :: a :: rest =>
        match pyAdd a b with
        | .ok v => .next { st with stack := v :: rest, ip := st.ip + 1 }
        | .error e => .err e
      | _ => .err "IndexError: pop from empty list"
    | .sub =>
      match st.stack with
      | b :: a :: rest =>
        match pySub a b with
        | .ok v => .next { st with stack := v :: rest, ip := st.ip + 1 }
        | .error e => .err e
      | _ => .err "IndexError: pop from empty list"
    | .mul =>
      match st.stack with
      | b :: a :: rest =>
        match pyMul a b with
        | .ok v => .next { st with stack := v :: rest, ip := st.ip + 1 }
        | .error e => .err e
      | _ => .err "IndexError: pop from empty list"
    | .div =>
      match st.stack with
      | b :: a :: rest =>
        match pyDiv a b with
        | .ok v => .next { st with stack := v :: rest, ip := st.ip + 1 }
        | .error e => .err e
      | _ => .err "IndexError: pop from empty list"
    | .lt =>
      match st.stack with
      | b :: a :: rest =>
        match pyLt a b with
        | .ok c => .next { st with stack := .int (if c then 1 else 0) :: rest, ip := st.ip + 1 }
        | .error e => .err e
      | _ => .err "IndexError: pop from empty list"
    | .eq =>
      match st.stack with
      | b :: a :: rest =>
        .next { st with stack := .int (if pyEq a b then 1 else 0) :: rest, ip := st.ip + 1 }
      | _ => .err "IndexError: pop from empty list"
    | .print =>
      match st.stack with
      | [] => .err "IndexError: pop from empty list"
      | v :: rest =>
        .next { st with stack := rest, stdout := st.stdout ++ [pyStr v], ip := st.ip + 1 }
    | .label _ => .next { st with ip := st.ip + 1 }
    | .jmp l =>
      match labelIndex P.prog l with
      | none => .err ("KeyError: " ++ l)
      | some i => .next { st with ip := i }
    | .jz l =>
      match st.stack with
      | [] => .err "IndexError: pop from empty list"
      | c :: rest =>
        if pyEq c (.int 0) then
          match labelIndex P.prog l with
          | none => .err ("KeyError: " ++ l)
          | some i => .next { st with stack := rest, ip := i }
        else .next { st with stack := rest, ip := st.ip + 1 }
    | .defun _ _ => .next { st with ip := st.ip + 1 }
    | .call fname argc =>
      match funLookup P.prog fname with
      | none => .err ("CALL unknown function: " ++ fname)
      | some (entry, params) =>
        if params.length ≠ argc then
          .err ("CALL arity mismatch for " ++ fname)
        else if st.stack.length < argc then
          .err "IndexError: pop from empty list"
        else
          .next { st with
            stack := st.stack.drop argc,
            callstack := (st.ip + 1) :: st.callstack,
            callFrames :=
              ((params.zip (st.stack.take argc).reverse).foldl
                (fun e pv => envSet e pv.1 pv.2) []) :: st.callFrames,
            ip := entry }
    | .ret =>
      match st.callFrames with
      | [] => .done st
      | _ :: rest =>
        match st.callstack with
        | [] => .err "IndexError: pop from empty list"
        | r :: rs => .next { st with callFrames := rest, callstack := rs, ip := r }
    | .callprim pname argc =>
      if pname ∈ prim_set then
        if st.stack.length < argc then .err "IndexError: pop from empty list"
        else
          match applyPrim P.stdin_text st.gensym_id st.out_lines pname
              (st.stack.take argc).reverse with
          | .error e => .err e
          | .ok (v, gid2, outl2) =>
            .next { st with
              stack := v :: st.stack.drop argc,
              gensym_id := gid2,
              out_lines := outl2,
              ip := st.ip + 1 }
      else .err ("Unknown primitive: " ++ pname)

/-- Outcome of running the dispatch loop with the given fuel. -/
inductive Outcome where
  | halt (st : VMState)
  | errored (msg : String)
  | fuelOut (st : VMState)

/-- The dispatch loop itself. -/
def runLoop (P : Program) : Nat → VMState → Outcome
  | 0, st => .fuelOut st
  | fuel + 1, st =>
    match step P st with
    | .next st1 => runLoop P fuel st1
    | .done st1 => .halt st1
    | .err m => .errored m

/-- Initial state of `run`: empty stack, the frame list holding just the
(empty) global frame, empty return stack, `ip = 0`, gensym counter 0. -/
def initState : VMState := ⟨[], [], [], [], 0, 0, [], []⟩

/-- `run(bytecode, stdin_text)` up to the given loop fuel. -/
def run (bc : List Instr) (stdin_text : String) (fuel : Nat) : Outcome :=
  runLoop ⟨bc, stdin_text⟩ fuel initState

/-- The value `run` returns on normal termination:
`"\n".join(out_lines)`. -/
def vmOutput (st : VMState) : String := String.intercalate "\n" st.out_lines

/-- The states the dispatch loop can actually be in: the initial state and
everything `step` reaches from it. -/
inductive Reaches (P : Program) : VMState → Prop where
  | init : Reaches P initState
  | step {st st1 : VMState} : Reaches P st → step P st = .next st1 → Reaches P st1

/-! ## Claim theorems -/

/-- Reduction of the do-notation bind on a known-ok `Except` value. -/
theorem exceptBind_ok {α β ε : Type} (a : α) (f : α → Except ε β) :
    (Except.ok a >>= f) = f a := rfl

/-- Reduction of the do-notation bind on a known-error `Except` value. -/
theorem exceptBind_error {α β ε : Type} (e : ε) (f : α → Except ε β) :
    ((Except.error e : Except ε α) >>= f) = .error e := rfl

/-- C2: compiling the source `(print (+ 1 2))` with the compiler and
executing the resulting bytecode on the VM writes exactly the line `3` to
stdout and terminates normally (the loop reaches `.halt`, not an error or
fuel exhaustion). -/
theorem c2_print_add_end_to_end :
    ∃ (bc : List Instr) (st : VMState),
      compileSrc "(print (+ 1 2))" = .ok bc ∧
      run bc "" 20 = .halt st ∧ st.stdout = ["3"] :=
  ⟨_, _, rfl, rfl, rfl⟩

/-- C3: the compiler is deterministic — compiling a source twice, each run
parsing it afresh and compiling with a fresh compiler instance
(`compile_program` starts from `C_init`, whose label counter is 0),
yields byte-identical bytecode text.  In the embedding each run is the
pure function `compileSrcText`, so the two runs coincide definitionally. -/
theorem c3_compiler_deterministic (src : String) :
    compileSrcText src = compileSrcText src := rfl

/-- C4: executing `LOAD x` pushes the value bound to `x` in the current
(top) frame if present, else the value bound in the global frame if
present, else the integer 0 — and it always produces a successor state,
never an error. -/
theorem c4_load_two_level_lookup (P : Program) (st : VMState) (x : String)
    (h : P.prog[st.ip]? = some (.load x)) :
    step P st = .next { st with stack := load_var st x :: st.stack, ip := st.ip + 1 } ∧
    (∀ v, envGet (currentFrame st) x = some v → load_var st x = v) ∧
    (envGet (currentFrame st) x = none →
      (∀ v, envGet st.globals x = some v → load_var st x = v) ∧
      (envGet st.globals x = none → load_var st x = .int 0)) := by
  refine ⟨by simp [step, h], ?_, ?_⟩
  · intro v hv
    simp [load_var, hv]
  · intro hcur
    exact ⟨fun v hv => by simp [load_var, hcur, hv],
           fun hg => by simp [load_var, hcur, hg]⟩

/-- Witness for C4 at a concrete program and state. -/
theorem c4_load_two_level_lookup_witness :
    step ⟨[.load "z"], ""⟩ initState =
      .next { initState with stack := load_var initState "z" :: initState.stack,
                             ip := initState.ip + 1 } ∧
    load_var initState "z" = .int 0 :=
  ⟨(c4_load_two_level_lookup ⟨[.load "z"], ""⟩ initState "z" rfl).1,
   ((c4_load_two_level_lookup ⟨[.load "z"], ""⟩ initState "z" rfl).2.2 rfl).2 rfl⟩

/-- C5: `STORE` writes only to the current frame.  First conjunct: the
spec's scenario — a top-level `(let x 1)` followed by a call to a function
whose body does `(let x 2)` leaves the global `x` at 1 after the run.
Second conjunct: executing `STORE` with at least one call frame present
leaves the global frame unchanged. -/
theorem c5_store_current_frame_only :
    (∃ (bc : List Instr) (st : VMState),
       compileSrc "(define (f) (let x 2)) (let x 1) (f)" = .ok bc ∧
       run bc "" 30 = .halt st ∧ envGet st.globals "x" = some (.int 1)) ∧
    (∀ (P : Program) (st : VMState) (x : String) (v : Val) (rest : List Val)
       (fr : Env) (frs : List Env),
       st.callFrames = fr :: frs → st.stack = v :: rest →
       P.prog[st.ip]? = some (.store x) →
       ∃ st1, step P st = .next st1 ∧ st1.globals = st.globals) := by
  constructor
  · exact ⟨_, _, rfl, rfl, rfl⟩
  · intro P st x v rest fr frs hcf hstk hi
    refine ⟨store_var { st with stack := rest, ip := st.ip + 1 } x v,
            by simp [step, hi, hstk], ?_⟩
    simp [store_var, hcf]

/-- Witness for C5's universal conjunct at a concrete state with one call
frame. -/
theorem c5_store_current_frame_only_witness :
    ∃ st1, step ⟨[.store "y"], ""⟩ ⟨[.int 7], [("g", .int 9)], [[]], [0], 0, 0, [], []⟩
        = .next st1 ∧
      st1.globals = (⟨[.int 7], [("g", .int 9)], [[]], [0], 0, 0, [], []⟩ : VMState).globals :=
  c5_store_current_frame_only.2 ⟨[.store "y"], ""⟩
    ⟨[.int 7], [("g", .int 9)], [[]], [0], 0, 0, [], []⟩ "y" (.int 7) [] [] []
    rfl rfl rfl

/-- C9: `CALL` of a name absent from the function table errors at call
time with `RuntimeError("CALL unknown function: ...")`; `CALLPRIM` of a
name outside the closed table errors with
`RuntimeError("Unknown primitive: ...")`; and the compiler emits a plain
`CALL` without error for any operator symbol that is neither a special
form nor a primitive (given its arguments compile). -/
theorem c9_unknown_call_and_primitive :
    (∀ (P : Program) (st : VMState) (f : String) (argc : Nat),
       P.prog[st.ip]? = some (.call f argc) → funLookup P.prog f = none →
       step P st = .err ("CALL unknown function: " ++ f)) ∧
    (∀ (P : Program) (st : VMState) (p : String) (argc : Nat),
       P.prog[st.ip]? = some (.callprim p argc) → p ∉ prim_set →
       step P st = .err ("Unknown primitive: " ++ p)) ∧
    (∀ (fuel : Nat) (s : CState) (name : String) (args : List Val) (s1 : CState),
       name ∉ ["begin", "if", "let", "set", "while", "+", "-", "*", "/", "<", "==",
               "print"] →
       name ∉ prim_set →
       compile_seq fuel s args = .ok s1 →
       compile_form (fuel + 1) s (.list (.sym name :: args)) =
         .ok (emit s1 (.call name args.length))) := by
  refine ⟨?_, ?_, ?_⟩
  · intro P st f argc hi hf
    simp [step, hi, hf]
  · intro P st p argc hi hp
    simp [step, hi, hp]
  · intro fuel s name args s1 hsp hprim hargs
    simp only [List.mem_cons, List.mem_singleton, not_or] at hsp
    obtain ⟨h1, h2, h3, h4, h5, h6, h7, h8, h9, h10, h11, h12⟩ := hsp
    simp [compile_form, h1, h2, h3, h4, h5, h6, h7, h8, h9, h10, h11, h12,
      binOp, hprim, hargs, exceptBind_ok]

/-- Witness for C9: a `CALL` to an unknown function and a `CALLPRIM` to an
unknown primitive both abort, and `(foo)` compiles to `CALL foo 0`. -/
theorem c9_unknown_call_and_primitive_witness :
    step ⟨[.call "g" 0], ""⟩ initState = .err ("CALL unknown function: " ++ "g") ∧
    step ⟨[.callprim "nope" 0], ""⟩ initState = .err ("Unknown primitive: " ++ "nope") ∧
    compile_form 1 C_init (.list [.sym "foo"]) = .ok (emit C_init (.call "foo" 0)) :=
  ⟨c9_unknown_call_and_primitive.1 ⟨[.call "g" 0], ""⟩ initState "g" 0 rfl rfl,
   c9_unknown_call_and_primitive.2.1 ⟨[.callprim "nope" 0], ""⟩ initState "nope" 0 rfl
     (by decide),
   c9_unknown_call_and_primitive.2.2 0 C_init "foo" [] C_init (by decide) (by decide) rfl⟩

/-- C10: when the instruction pointer is past the last instruction the
loop condition `ip < len(prog)` fails, so the VM halts normally — no
error — and `run` returns the joined emit buffer. -/
theorem c10_ip_past_end_halts (P : Program) (st : VMState) (fuel : Nat)
    (h : P.prog.length ≤ st.ip) :
    step P st = .done st ∧ runLoop P (fuel + 1) st = .halt st ∧
    vmOutput st = String.intercalate "\n" st.out_lines := by
  have hg : P.prog[st.ip]? = none := List.getElem?_eq_none h
  refine ⟨by simp [step, hg], ?_, rfl⟩
  simp [runLoop, step, hg]

/-- Witness for C10 on the empty program. -/
theorem c10_ip_past_end_halts_witness :
    step ⟨[], ""⟩ initState = .done initState ∧
    runLoop ⟨[], ""⟩ 1 initState = .halt initState ∧
    vmOutput initState = String.intercalate "\n" initState.out_lines :=
  c10_ip_past_end_halts ⟨[], ""⟩ initState 0 (Nat.le_refl 0)

/-- C8 counterexample: `(begin)` does *not* evaluate to 0 — its compiled
code is empty (`compile_form` returns the state unchanged), and executing
an empty instruction sequence leaves the operand stack empty rather than
pushing the integer 0. -/
theorem c8_begin_empty_counterexample :
    compile_form 5 C_init (.list [.sym "begin"]) = .ok C_init ∧
    run [] "" 3 = .halt initState ∧ initState.stack = [] ∧
    ¬ initState.stack = [Val.int 0] := by
  refine ⟨rfl, rfl, rfl, by simp [initState]⟩

/-- C8 amended: compiling `(begin e)` produces exactly the bytecode of
compiling `e` alone from the same compiler state (the `+ 2` accounts for
the two recursion levels `begin` adds in the fuel bookkeeping), and
`(begin)` with no subforms compiles to no instructions at all, leaving
the operand stack unchanged instead of pushing 0. -/
theorem c8_begin_idempotence_amended :
    (∀ (fuel : Nat) (s : CState) (e : Val),
       compile_form (fuel + 2) s (.list [.sym "begin", e]) = compile_form fuel s e) ∧
    (∀ (fuel : Nat) (s : CState),
       compile_form (fuel + 1) s (.list [.sym "begin"]) = .ok s) := by
  constructor
  · intro fuel s e
    simp only [compile_form]
    norm_num
    simp only [compile_seq]
    cases h : compile_form fuel s e <;>
      simp [h, compile_seq, exceptBind_ok, exceptBind_error]
  · intro fuel s
    simp [compile_form, compile_seq]

/-- `store_var` only rewrites a binding inside the current frame (or the
global frame): the frame count and the return stack are untouched. -/
theorem store_var_frames (st : VMState) (x : String) (v : Val) :
    (store_var st x v).callFrames.length = st.callFrames.length ∧
    (store_var st x v).callstack = st.callstack := by
  unfold store_var
  split <;> simp_all

/-- Every successor state produced by `step` keeps the number of call
frames equal to the number of return addresses: `CALL` pushes one of each,
`RET` pops one of each (it errors rather than stepping when the return
stack is empty), and every other instruction touches neither. -/
theorem step_preserves_frames_eq {P : Program} {st st1 : VMState}
    (h : step P st = .next st1)
    (hinv : st.callFrames.length = st.callstack.length) :
    st1.callFrames.length = st1.callstack.length := by
  unfold step at h
  cases hg : P.prog[st.ip]? with
  | none => rw [hg] at h; exact absurd h (by simp)
  | some inst =>
    rw [hg] at h
    cases inst <;> simp only at h <;>
      (repeat' split at h) <;>
      (try cases h) <;>
      simp_all [store_var_frames]

/-- C6: in every reachable VM state the frame list is non-empty with the
global frame at the bottom, the length equality
`len(frames) = 1 + len(return_stack)` holds (in particular immediately
before dispatching any instruction), and executing `RET` when only the
global frame remains terminates the program. -/
theorem c6_frame_invariants (P : Program) (st : VMState) (hr : Reaches P st) :
    (pyFrames st ≠ [] ∧ (pyFrames st).head? = some st.globals) ∧
    (pyFrames st).length = 1 + st.callstack.length ∧
    (st.callFrames = [] → P.prog[st.ip]? = some .ret → step P st = .done st) := by
  have hlen : st.callFrames.length = st.callstack.length := by
    induction hr with
    | init => rfl
    | step hr hs ih => exact step_preserves_frames_eq hs ih
  refine ⟨⟨by simp [pyFrames], by simp [pyFrames]⟩, ?_, ?_⟩
  · simp [pyFrames, hlen, Nat.add_comm]
  · intro hcf hi
    simp [step, hi, hcf]

/-- Witness for C6 on the one-instruction program `RET` at the initial
state: the invariants hold and `RET` from the global frame terminates. -/
theorem c6_frame_invariants_witness :
    step ⟨[.ret], ""⟩ initState = .done initState ∧
    (pyFrames initState).length = 1 + initState.callstack.length :=
  ⟨(c6_frame_invariants ⟨[.ret], ""⟩ initState .init).2.2 rfl rfl,
   (c6_frame_invariants ⟨[.ret], ""⟩ initState .init).2.1⟩

/-- Dropping across a fully satisfying prefix stops at the first failing
element. -/
theorem dropWhile_all_append {p : Char → Bool} :
    ∀ (ws : List Char) (c : Char) (cs : List Char),
      (∀ w ∈ ws, p w = true) → p c = false →
      List.dropWhile p (ws ++ c :: cs) = c :: cs := by
  intro ws c cs hws hc
  induction ws with
  | nil => simp [List.dropWhile_cons, hc]
  | cons w ws2 ih =>
    have hw : p w = true := hws w (List.mem_cons_self w ws2)
    simp only [List.cons_append, List.dropWhile_cons, hw, if_true]
    exact ih (fun u hu => hws u (List.mem_cons_of_mem w hu))

/-- Dropping across a list every element of which satisfies the predicate
consumes it whole. -/
theorem dropWhile_all {p : Char → Bool} :
    ∀ (l : List Char), (∀ w ∈ l, p w = true) → List.dropWhile p l = [] := by
  intro l hl
  induction l with
  | nil => rfl
  | cons w l2 ih =>
    simp only [List.dropWhile_cons, hl w (List.mem_cons_self w l2), if_true]
    exact ih (fun u hu => hl u (List.mem_cons_of_mem w hu))

/-- C1 amended: whitespace and comments *before a token* are discarded,
and a comment running to EOF with no trailing newline tokenizes cleanly;
but after the last token the matcher still demands a token, so an input
that continues with whitespace reaching EOF (in particular a
whitespace-only input, or a newline after a final comment) raises
SyntaxError.  Conjuncts: (1) a whitespace run before a non-whitespace
character does not change which token lists the lexer can produce; (2) a
comment with no newline before EOF yields exactly `[EOF]`; (3) a comment
up to a newline is skipped entirely; (4) a nonempty all-whitespace
remainder is a SyntaxError at its start. -/
theorem c1_lexer_whitespace_comments_amended :
    (∀ (fuel : Nat) (ws : List Char) (c : Char) (cs : List Char) (ts : List Tok),
       (∀ w ∈ ws, isPySpace w = true) → isPySpace c = false →
       (tokLoop fuel (ws ++ c :: cs) = .toks ts ↔ tokLoop fuel (c :: cs) = .toks ts)) ∧
    (∀ (fuel : Nat) (com : List Char), '\n' ∉ com →
       tokLoop (fuel + 1) (';' :: com) = .toks [.eof]) ∧
    (∀ (fuel : Nat) (com rest : List Char), '\n' ∉ com →
       tokLoop (fuel + 1) (';' :: (com ++ '\n' :: rest)) = tokLoop fuel ('\n' :: rest)) ∧
    (∀ (fuel : Nat) (w : Char) (ws : List Char),
       (∀ u ∈ w :: ws, isPySpace u = true) →
       tokLoop (fuel + 1) (w :: ws) = .synErr (w :: ws)) := by
  refine ⟨?_, ?_, ?_, ?_⟩
  · intro fuel ws c cs ts hws hc
    cases ws with
    | nil => simp
    | cons w ws2 =>
      cases fuel with
      | zero => simp [tokLoop]
      | succ f =>
        have hd := dropWhile_all_append (w :: ws2) c cs hws hc
        have hd2 : List.dropWhile isPySpace (c :: cs) = c :: cs := by
          simp [List.dropWhile_cons, hc]
        simp only [List.cons_append] at hd ⊢
        simp only [tokLoop, hd, hd2]
        split <;> simp_all <;>
          (repeat (split <;> simp_all))
  · intro fuel com hcom
    have hsemi : isPySpace ';' = false := rfl
    have hdw : List.dropWhile (fun c => c ≠ '\n') com = [] := by
      apply dropWhile_all
      intro u hu
      simp only [decide_eq_true_eq]
      intro heq
      exact hcom (heq ▸ hu)
    simp only [ne_eq, decide_not] at hdw
    simp [tokLoop, List.dropWhile_cons, hsemi, hdw]
  · intro fuel com rest hcom
    have hsemi : isPySpace ';' = false := rfl
    have hd3 : List.dropWhile (fun c => c ≠ '\n') (com ++ '\n' :: rest) = '\n' :: rest := by
      apply dropWhile_all_append
      · intro u hu
        simp only [decide_eq_true_eq]
        intro heq
        exact hcom (heq ▸ hu)
      · simp
    simp only [ne_eq, decide_not] at hd3
    simp [tokLoop, List.dropWhile_cons, hsemi, hd3]
  · intro fuel w ws hall
    have hd4 : List.dropWhile isPySpace (w :: ws) = [] := dropWhile_all _ hall
    simp [tokLoop, hd4]

/-- C1 counterexample: the tokenizer does *not* accept trailing
whitespace.  An input of whitespace only raises SyntaxError at position 0,
and valid tokens followed by trailing whitespace (here a final newline)
raise SyntaxError at the whitespace — contradicting the claim that such
inputs tokenize successfully. -/
theorem c1_trailing_whitespace_counterexample :
    tokenize " " = .error "Unexpected character at 0:  " ∧
    tokenize "(a) \n" = .error "Unexpected character at 3:  \n" :=
  ⟨rfl, rfl⟩

/-- Witness for C1's amended statement at concrete inputs: a leading space
before `(` changes nothing about the produced tokens, `;x` at EOF lexes to
just `EOF`, and a whitespace-only remainder is a SyntaxError. -/
theorem c1_lexer_whitespace_comments_amended_witness :
    (tokLoop 2 [' ', '('] = .toks [.lp, .eof] ↔ tokLoop 2 ['('] = .toks [.lp, .eof]) ∧
    tokLoop 1 [';', 'x'] = .toks [.eof] ∧
    tokLoop 1 [' '] = .synErr [' '] :=
  ⟨c1_lexer_whitespace_comments_amended.1 2 [' '] '(' [] [.lp, .eof]
     (by decide) (by decide),
   c1_lexer_whitespace_comments_amended.2.1 0 ['x'] (by decide),
   c1_lexer_whitespace_comments_amended.2.2.2 0 ' ' [] (by decide)⟩

/-! ## Injectivity of decimal rendering

`gensym` builds label names as `prefix ++ Nat.repr id`, so label
uniqueness (C7) reduces to injectivity of `Nat.repr`, proved here through
a direct recursive presentation of the digit list. -/

/-- The digit characters of `n`, most significant first. -/
def decDigits (n : Nat) : List Char :=
  if _h : n < 10 then [Nat.digitChar n]
  else decDigits (n / 10) ++ [Nat.digitChar (n % 10)]
  termination_by n
  decreasing_by exact Nat.div_lt_self (by omega) (by omega)

/-- `decDigits` is never empty. -/
theorem decDigits_ne_nil (n : Nat) : decDigits n ≠ [] := by
  unfold decDigits
  split <;> simp

/-- `Nat.toDigitsCore` with enough fuel computes `decDigits`. -/
theorem toDigitsCore_eq_decDigits :
    ∀ (fuel n : Nat) (acc : List Char), n < fuel →
      Nat.toDigitsCore 10 fuel n acc = decDigits n ++ acc := by
  intro fuel
  induction fuel with
  | zero => intro n acc h; omega
  | succ f ih =>
    intro n acc h
    unfold Nat.toDigitsCore
    by_cases h10 : n / 10 = 0
    · have hn : n < 10 := by
        by_contra hge
        have : 1 ≤ n / 10 := Nat.one_le_div_iff (by omega) |>.mpr (by omega)
        omega
      simp only [h10, if_true]
      unfold decDigits
      rw [dif_pos hn, Nat.mod_eq_of_lt hn]
      simp
    · have hge : 10 ≤ n := by
        by_contra hlt
        exact h10 (Nat.div_eq_of_lt (by omega))
      simp only [h10, if_false]
      rw [ih (n / 10) _ (by
        have : n / 10 < n := Nat.div_lt_self (by omega) (by omega)
        omega)]
      conv_rhs => unfold decDigits
      rw [dif_neg (by omega)]
      simp [List.append_assoc]

/-- `Nat.digitChar` is injective below 10. -/
theorem digitChar_inj_lt10 :
    ∀ a < 10, ∀ b < 10, Nat.digitChar a = Nat.digitChar b → a = b := by decide

/-- Unfolding of `decDigits` on a single digit. -/
theorem decDigits_lt (n : Nat) (h : n < 10) :
    decDigits n = [Nat.digitChar n] := by
  rw [decDigits, dif_pos h]

/-- Unfolding of `decDigits` on a multi-digit number. -/
theorem decDigits_ge (n : Nat) (h : ¬ n < 10) :
    decDigits n = decDigits (n / 10) ++ [Nat.digitChar (n % 10)] := by
  rw [decDigits, dif_neg h]

/-- `decDigits` is injective. -/
theorem decDigits_inj : ∀ m n : Nat, decDigits m = decDigits n → m = n := by
  intro m
  induction m using Nat.strong_induction_on with
  | _ m ih =>
    intro n h
    by_cases hm : m < 10 <;> by_cases hn : n < 10
    · rw [decDigits_lt m hm, decDigits_lt n hn] at h
      exact digitChar_inj_lt10 m hm n hn (by injection h)
    · exfalso
      rw [decDigits_lt m hm, decDigits_ge n hn] at h
      apply decDigits_ne_nil (n / 10)
      have hlen := congrArg List.length h
      simp only [List.length_append, List.length_singleton] at hlen
      exact List.length_eq_zero.mp (by omega)
    · exfalso
      rw [decDigits_ge m hm, decDigits_lt n hn] at h
      apply decDigits_ne_nil (m / 10)
      have hlen := congrArg List.length h
      simp only [List.length_append, List.length_singleton] at hlen
      exact List.length_eq_zero.mp (by omega)
    · rw [decDigits_ge m hm, decDigits_ge n hn] at h
      have h2 := congrArg List.reverse h
      simp only [List.reverse_append, List.reverse_singleton, List.singleton_append,
        List.cons.injEq] at h2
      obtain ⟨hmod, hrev⟩ := h2
      have hdiv : m / 10 = n / 10 :=
        ih (m / 10) (Nat.div_lt_self (by omega) (by omega))
          (n / 10) (List.reverse_injective hrev)
      have hmod2 : m % 10 = n % 10 :=
        digitChar_inj_lt10 _ (Nat.mod_lt _ (by omega)) _ (Nat.mod_lt _ (by omega)) hmod
      omega

/-- `Nat.repr` is injective. -/
theorem natRepr_inj : ∀ m n : Nat, Nat.repr m = Nat.repr n → m = n := by
  intro m n h
  apply decDigits_inj
  have hm := toDigitsCore_eq_decDigits (m + 1) m [] (by omega)
  have hn := toDigitsCore_eq_decDigits (n + 1) n [] (by omega)
  have h2 := congrArg String.data h
  simp only [Nat.repr, Nat.toDigits, List.asString] at h2
  rw [hm, hn] at h2
  simpa using h2

/-! ## Label discipline of the compiler (C7) -/

/-- Names of the `LABEL` instructions of a bytecode segment, in order. -/
def labelNames (bc : List Instr) : List String :=
  bc.filterMap fun i =>
    match i with
    | .label l => some l
    | _ => none

/-- Names targeted by `JMP` or `JZ` instructions of a segment. -/
def jumpTargets (bc : List Instr) : List String :=
  bc.filterMap fun i =>
    match i with
    | .jmp l => some l
    | .jz l => some l
    | _ => none

/-- A gensym-produced label name with an id in the half-open range
`(n, m]`. -/
def IsGen (n m : Nat) (l : String) : Prop :=
  ∃ p k, (p = "ELSE" ∨ p = "END" ∨ p = "TOP") ∧ n < k ∧ k ≤ m ∧
    l = p ++ Nat.repr k

/-- A well-formed compiled segment for a compilation that moved the label
counter from `n` to `m`: its labels are distinct gensym names with ids in
`(n, m]`, and every jump target inside it is one of its own labels. -/
def GoodSeg (n m : Nat) (Δ : List Instr) : Prop :=
  (labelNames Δ).Nodup ∧
  (∀ l ∈ labelNames Δ, IsGen n m l) ∧
  (∀ t ∈ jumpTargets Δ, t ∈ labelNames Δ)

/-- Two gensym names with the same id-range role but different ids are
different strings: same prefix forces equal decimal parts, and the three
prefixes are pairwise distinguishable by their first two characters. -/
theorem gen_name_inj {p1 p2 : String}
    (hp1 : p1 = "ELSE" ∨ p1 = "END" ∨ p1 = "TOP")
    (hp2 : p2 = "ELSE" ∨ p2 = "END" ∨ p2 = "TOP")
    (k1 k2 : Nat) (h : p1 ++ Nat.repr k1 = p2 ++ Nat.repr k2) : k1 = k2 := by
  have hd := congrArg String.data h
  rw [String.data_append, String.data_append] at hd
  rcases hp1 with rfl | rfl | rfl <;> rcases hp2 with rfl | rfl | rfl <;>
    simp only [show ("ELSE" : String).data = ['E', 'L', 'S', 'E'] from rfl,
      show ("END" : String).data = ['E', 'N', 'D'] from rfl,
      show ("TOP" : String).data = ['T', 'O', 'P'] from rfl,
      List.cons_append, List.nil_append, List.cons.injEq] at hd <;>
    exact natRepr_inj k1 k2 (congrArg String.mk (by tauto))

/-- Gensym names from disjoint id ranges differ. -/
theorem isGen_ne {n1 m1 n2 m2 : Nat} {l1 l2 : String}
    (h1 : IsGen n1 m1 l1) (h2 : IsGen n2 m2 l2) (hle : m1 ≤ n2) : l1 ≠ l2 := by
  obtain ⟨p1, k1, hp1, _, hk1, rfl⟩ := h1
  obtain ⟨p2, k2, hp2, hk2, _, rfl⟩ := h2
  intro heq
  have := gen_name_inj hp1 hp2 k1 k2 heq
  omega

/-- No gensym name is the reserved `__START__` label. -/
theorem isGen_ne_start {n m : Nat} {l : String} (h : IsGen n m l) :
    l ≠ "__START__" := by
  obtain ⟨p, k, hp, _, _, rfl⟩ := h
  intro heq
  have hd := congrArg String.data heq
  rw [String.data_append] at hd
  rcases hp with rfl | rfl | rfl <;> simp_all

/-- The empty segment is well-formed over an empty range. -/
theorem goodSeg_nil (n : Nat) : GoodSeg n n [] := by
  refine ⟨List.nodup_nil, ?_, ?_⟩ <;> simp [labelNames, jumpTargets]

/-- Widening the id range preserves well-formedness. -/
theorem GoodSeg.mono {n m Δ} (h : GoodSeg n m Δ) {n2 m2 : Nat}
    (h1 : n2 ≤ n) (h2 : m ≤ m2) : GoodSeg n2 m2 Δ := by
  obtain ⟨hnd, hgen, htg⟩ := h
  refine ⟨hnd, ?_, htg⟩
  intro l hl
  obtain ⟨p, k, hp, hk1, hk2, he⟩ := hgen l hl
  exact ⟨p, k, hp, by omega, by omega, he⟩

/-- `labelNames` distributes over concatenation. -/
theorem labelNames_append (a b : List Instr) :
    labelNames (a ++ b) = labelNames a ++ labelNames b :=
  List.filterMap_append a b _

/-- `jumpTargets` distributes over concatenation. -/
theorem jumpTargets_append (a b : List Instr) :
    jumpTargets (a ++ b) = jumpTargets a ++ jumpTargets b :=
  List.filterMap_append a b _

/-- Concatenating well-formed segments over adjacent ranges (with the
counter moving monotonically) is well-formed. -/
theorem GoodSeg.append {n m k : Nat} {Δ1 Δ2 : List Instr}
    (hnm : n ≤ m) (hmk : m ≤ k)
    (h1 : GoodSeg n m Δ1) (h2 : GoodSeg m k Δ2) : GoodSeg n k (Δ1 ++ Δ2) := by
  obtain ⟨nd1, g1, t1⟩ := h1
  obtain ⟨nd2, g2, t2⟩ := h2
  refine ⟨?_, ?_, ?_⟩
  · rw [labelNames_append]
    exact nd1.append nd2
      (fun l hl1 hl2 => absurd rfl (isGen_ne (g1 l hl1) (g2 l hl2) (Nat.le_refl m)))
  · rw [labelNames_append]
    intro l hl
    rcases List.mem_append.mp hl with hl1 | hl2
    · obtain ⟨p, q, hp, hq1, hq2, he⟩ := g1 l hl1
      exact ⟨p, q, hp, by omega, by omega, he⟩
    · obtain ⟨p, q, hp, hq1, hq2, he⟩ := g2 l hl2
      exact ⟨p, q, hp, by omega, by omega, he⟩
  · rw [jumpTargets_append, labelNames_append]
    intro t ht
    rcases List.mem_append.mp ht with ht1 | ht2
    · exact List.mem_append_left _ (t1 t ht1)
    · exact List.mem_append_right _ (t2 t ht2)

/-- A segment with no labels and no jumps is well-formed over an empty
range. -/
theorem goodSeg_of_empty {n : Nat} {Δ : List Instr}
    (hl : labelNames Δ = []) (ht : jumpTargets Δ = []) : GoodSeg n n Δ :=
  ⟨hl ▸ List.nodup_nil, by simp [hl], by simp [ht]⟩

/-- The gensym name `ELSE(n+1)` as a ranged label. -/
theorem isGen_else (n : Nat) : IsGen n (n + 1) ("ELSE" ++ Nat.repr (n + 1)) :=
  ⟨"ELSE", n + 1, Or.inl rfl, by omega, by omega, rfl⟩

/-- The gensym name `END(n+2)` as a ranged label. -/
theorem isGen_end (n : Nat) : IsGen (n + 1) (n + 2) ("END" ++ Nat.repr (n + 2)) :=
  ⟨"END", n + 2, Or.inr (Or.inl rfl), by omega, by omega, rfl⟩

/-- The gensym name `TOP(n+1)` as a ranged label. -/
theorem isGen_top (n : Nat) : IsGen n (n + 1) ("TOP" ++ Nat.repr (n + 1)) :=
  ⟨"TOP", n + 1, Or.inr (Or.inr rfl), by omega, by omega, rfl⟩

/-- Assemble `Nodup` of three concatenated lists from componentwise
`Nodup` and pairwise disjointness. -/
theorem nodup_three {α : Type} {L1 L2 L3 : List α}
    (n1 : L1.Nodup) (n2 : L2.Nodup) (n3 : L3.Nodup)
    (d12 : ∀ a ∈ L1, ∀ b ∈ L2, a ≠ b)
    (d13 : ∀ a ∈ L1, ∀ b ∈ L3, a ≠ b)
    (d23 : ∀ a ∈ L2, ∀ b ∈ L3, a ≠ b) :
    (L1 ++ L2 ++ L3).Nodup := by
  have h12 : (L1 ++ L2).Nodup :=
    n1.append n2 (fun a ha hb => d12 a ha a hb rfl)
  exact h12.append n3 (fun a ha hb => by
    rcases List.mem_append.mp ha with h | h
    · exact d13 a h a hb rfl
    · exact d23 a h a hb rfl)

/-- Assemble `Nodup` of five concatenated lists from componentwise
`Nodup` and pairwise disjointness. -/
theorem nodup_five {α : Type} {L1 L2 L3 L4 L5 : List α}
    (n1 : L1.Nodup) (n2 : L2.Nodup) (n3 : L3.Nodup) (n4 : L4.Nodup) (n5 : L5.Nodup)
    (d12 : ∀ a ∈ L1, ∀ b ∈ L2, a ≠ b)
    (d13 : ∀ a ∈ L1, ∀ b ∈ L3, a ≠ b)
    (d14 : ∀ a ∈ L1, ∀ b ∈ L4, a ≠ b)
    (d15 : ∀ a ∈ L1, ∀ b ∈ L5, a ≠ b)
    (d23 : ∀ a ∈ L2, ∀ b ∈ L3, a ≠ b)
    (d24 : ∀ a ∈ L2, ∀ b ∈ L4, a ≠ b)
    (d25 : ∀ a ∈ L2, ∀ b ∈ L5, a ≠ b)
    (d34 : ∀ a ∈ L3, ∀ b ∈ L4, a ≠ b)
    (d35 : ∀ a ∈ L3, ∀ b ∈ L5, a ≠ b)
    (d45 : ∀ a ∈ L4, ∀ b ∈ L5, a ≠ b) :
    (L1 ++ L2 ++ L3 ++ L4 ++ L5).Nodup := by
  have h123 : (L1 ++ L2 ++ L3).Nodup := nodup_three n1 n2 n3 d12 d13 d23
  have h1234 : (L1 ++ L2 ++ L3 ++ L4).Nodup :=
    h123.append n4 (fun a ha hb => by
      rcases List.mem_append.mp ha with h | h
      · rcases List.mem_append.mp h with h2 | h2
        · exact d14 a h2 a hb rfl
        · exact d24 a h2 a hb rfl
      · exact d34 a h a hb rfl)
  exact h1234.append n5 (fun a ha hb => by
    rcases List.mem_append.mp ha with h | h
    · rcases List.mem_append.mp h with h2 | h2
      · rcases List.mem_append.mp h2 with h3 | h3
        · exact d15 a h3 a hb rfl
        · exact d25 a h3 a hb rfl
      · exact d35 a h2 a hb rfl
    · exact d45 a h a hb rfl)

/-- The bytecode laid down for `(if c t e)` around well-formed segments
for the three subforms is itself well-formed: the two labels it
introduces carry the two fresh ids `n+1` and `n+2`, below every id any
subsegment can use, and both jump targets are among its own labels. -/
theorem goodSeg_if {n a b c : Nat} {Δc Δt Δe : List Instr}
    (h2 : n + 2 ≤ a) (hab : a ≤ b) (hbc : b ≤ c)
    (hgc : GoodSeg (n + 2) a Δc) (hgt : GoodSeg a b Δt) (hge : GoodSeg b c Δe) :
    GoodSeg n c
      (Δc ++ [.jz ("ELSE" ++ Nat.repr (n + 1))] ++ Δt ++
        [.jmp ("END" ++ Nat.repr (n + 2)), .label ("ELSE" ++ Nat.repr (n + 1))] ++
        Δe ++ [.label ("END" ++ Nat.repr (n + 2))]) := by
  obtain ⟨ndc, gc, tc⟩ := hgc
  obtain ⟨ndt, gt, tt⟩ := hgt
  obtain ⟨nde, ge, te⟩ := hge
  have hLN : labelNames
      (Δc ++ [.jz ("ELSE" ++ Nat.repr (n + 1))] ++ Δt ++
        [.jmp ("END" ++ Nat.repr (n + 2)), .label ("ELSE" ++ Nat.repr (n + 1))] ++
        Δe ++ [.label ("END" ++ Nat.repr (n + 2))]) =
      labelNames Δc ++ labelNames Δt ++ ["ELSE" ++ Nat.repr (n + 1)] ++
        labelNames Δe ++ ["END" ++ Nat.repr (n + 2)] := by
    simp [labelNames_append, labelNames]
  have hJT : jumpTargets
      (Δc ++ [.jz ("ELSE" ++ Nat.repr (n + 1))] ++ Δt ++
        [.jmp ("END" ++ Nat.repr (n + 2)), .label ("ELSE" ++ Nat.repr (n + 1))] ++
        Δe ++ [.label ("END" ++ Nat.repr (n + 2))]) =
      jumpTargets Δc ++ ["ELSE" ++ Nat.repr (n + 1)] ++ jumpTargets Δt ++
        ["END" ++ Nat.repr (n + 2)] ++ jumpTargets Δe := by
    simp [jumpTargets_append, jumpTargets]
  refine ⟨?_, ?_, ?_⟩
  · rw [hLN]
    refine nodup_five ndc ndt (List.nodup_singleton _) nde (List.nodup_singleton _)
      ?_ ?_ ?_ ?_ ?_ ?_ ?_ ?_ ?_ ?_
    · exact fun x hx y hy => isGen_ne (gc x hx) (gt y hy) (by omega)
    · intro x hx y hy
      rw [List.mem_singleton.mp hy]
      exact (isGen_ne (isGen_else n) (gc x hx) (by omega)).symm
    · exact fun x hx y hy => isGen_ne (gc x hx) (ge y hy) (by omega)
    · intro x hx y hy
      rw [List.mem_singleton.mp hy]
      exact (isGen_ne (isGen_end n) (gc x hx) (by omega)).symm
    · intro x hx y hy
      rw [List.mem_singleton.mp hy]
      exact (isGen_ne (isGen_else n) (gt x hx) (by omega)).symm
    · exact fun x hx y hy => isGen_ne (gt x hx) (ge y hy) (by omega)
    · intro x hx y hy
      rw [List.mem_singleton.mp hy]
      exact (isGen_ne (isGen_end n) (gt x hx) (by omega)).symm
    · intro x hx y hy
      rw [List.mem_singleton.mp hx]
      exact isGen_ne (isGen_else n) (ge y hy) (by omega)
    · intro x hx y hy
      rw [List.mem_singleton.mp hx, List.mem_singleton.mp hy]
      exact isGen_ne (isGen_else n) (isGen_end n) (by omega)
    · intro x hx y hy
      rw [List.mem_singleton.mp hy]
      exact (isGen_ne (isGen_end n) (ge x hx) (by omega)).symm
  · rw [hLN]
    intro l hl
    simp only [List.mem_append, List.mem_singleton] at hl
    rcases hl with (((hc | hc) | hc) | hc) | hc
    · obtain ⟨p, q, hp, h1, hq, he⟩ := gc l hc
      exact ⟨p, q, hp, by omega, by omega, he⟩
    · obtain ⟨p, q, hp, h1, hq, he⟩ := gt l hc
      exact ⟨p, q, hp, by omega, by omega, he⟩
    · exact hc ▸ ⟨"ELSE", n + 1, Or.inl rfl, by omega, by omega, rfl⟩
    · obtain ⟨p, q, hp, h1, hq, he⟩ := ge l hc
      exact ⟨p, q, hp, by omega, by omega, he⟩
    · exact hc ▸ ⟨"END", n + 2, Or.inr (Or.inl rfl), by omega, by omega, rfl⟩
  · rw [hJT, hLN]
    intro t ht
    simp only [List.mem_append, List.mem_singleton] at ht ⊢
    rcases ht with (((hc | hc) | hc) | hc) | hc
    · exact Or.inl (Or.inl (Or.inl (Or.inl (tc t hc))))
    · exact Or.inl (Or.inl (Or.inr hc))
    · exact Or.inl (Or.inl (Or.inl (Or.inr (tt t hc))))
    · exact Or.inr hc
    · exact Or.inl (Or.inr (te t hc))

/-- Assemble `Nodup` of four concatenated lists from componentwise
`Nodup` and pairwise disjointness. -/
theorem nodup_four {α : Type} {L1 L2 L3 L4 : List α}
    (n1 : L1.Nodup) (n2 : L2.Nodup) (n3 : L3.Nodup) (n4 : L4.Nodup)
    (d12 : ∀ a ∈ L1, ∀ b ∈ L2, a ≠ b)
    (d13 : ∀ a ∈ L1, ∀ b ∈ L3, a ≠ b)
    (d14 : ∀ a ∈ L1, ∀ b ∈ L4, a ≠ b)
    (d23 : ∀ a ∈ L2, ∀ b ∈ L3, a ≠ b)
    (d24 : ∀ a ∈ L2, ∀ b ∈ L4, a ≠ b)
    (d34 : ∀ a ∈ L3, ∀ b ∈ L4, a ≠ b) :
    (L1 ++ L2 ++ L3 ++ L4).Nodup := by
  have h123 : (L1 ++ L2 ++ L3).Nodup := nodup_three n1 n2 n3 d12 d13 d23
  exact h123.append n4 (fun a ha hb => by
    rcases List.mem_append.mp ha with h | h
    · rcases List.mem_append.mp h with h2 | h2
      · exact d14 a h2 a hb rfl
      · exact d24 a h2 a hb rfl
    · exact d34 a h a hb rfl)

/-- The bytecode laid down for `(while c b...)` around well-formed
segments for the condition and body is itself well-formed. -/
theorem goodSeg_while {n a b : Nat} {Δc Δb : List Instr}
    (h2 : n + 2 ≤ a) (hab : a ≤ b)
    (hgc : GoodSeg (n + 2) a Δc) (hgb : GoodSeg a b Δb) :
    GoodSeg n b
      ([Instr.label ("TOP" ++ Nat.repr (n + 1))] ++ Δc ++
        [Instr.jz ("END" ++ Nat.repr (n + 2))] ++ Δb ++
        [Instr.jmp ("TOP" ++ Nat.repr (n + 1)),
         Instr.label ("END" ++ Nat.repr (n + 2)), Instr.push 0]) := by
  obtain ⟨ndc, gc, tc⟩ := hgc
  obtain ⟨ndb, gb, tb⟩ := hgb
  have hLN : labelNames
      ([Instr.label ("TOP" ++ Nat.repr (n + 1))] ++ Δc ++
        [Instr.jz ("END" ++ Nat.repr (n + 2))] ++ Δb ++
        [Instr.jmp ("TOP" ++ Nat.repr (n + 1)),
         Instr.label ("END" ++ Nat.repr (n + 2)), Instr.push 0]) =
      ["TOP" ++ Nat.repr (n + 1)] ++ labelNames Δc ++ labelNames Δb ++
        ["END" ++ Nat.repr (n + 2)] := by
    simp [labelNames_append, labelNames]
  have hJT : jumpTargets
      ([Instr.label ("TOP" ++ Nat.repr (n + 1))] ++ Δc ++
        [Instr.jz ("END" ++ Nat.repr (n + 2))] ++ Δb ++
        [Instr.jmp ("TOP" ++ Nat.repr (n + 1)),
         Instr.label ("END" ++ Nat.repr (n + 2)), Instr.push 0]) =
      jumpTargets Δc ++ ["END" ++ Nat.repr (n + 2)] ++ jumpTargets Δb ++
        ["TOP" ++ Nat.repr (n + 1)] := by
    simp [jumpTargets_append, jumpTargets]
  refine ⟨?_, ?_, ?_⟩
  · rw [hLN]
    refine nodup_four (List.nodup_singleton _) ndc ndb (List.nodup_singleton _)
      ?_ ?_ ?_ ?_ ?_ ?_
    · intro x hx y hy
      rw [List.mem_singleton.mp hx]
      exact isGen_ne (isGen_top n) (gc y hy) (by omega)
    · intro x hx y hy
      rw [List.mem_singleton.mp hx]
      exact isGen_ne (isGen_top n) (gb y hy) (by omega)
    · intro x hx y hy
      rw [List.mem_singleton.mp hx, List.mem_singleton.mp hy]
      exact isGen_ne (isGen_top n) (isGen_end n) (by omega)
    · exact fun x hx y hy => isGen_ne (gc x hx) (gb y hy) (by omega)
    · intro x hx y hy
      rw [List.mem_singleton.mp hy]
      exact (isGen_ne (isGen_end n) (gc x hx) (by omega)).symm
    · intro x hx y hy
      rw [List.mem_singleton.mp hy]
      exact (isGen_ne (isGen_end n) (gb x hx) (by omega)).symm
  · rw [hLN]
    intro l hl
    simp only [List.mem_append, List.mem_singleton] at hl
    rcases hl with ((hc | hc) | hc) | hc
    · exact hc ▸ ⟨"TOP", n + 1, Or.inr (Or.inr rfl), by omega, by omega, rfl⟩
    · obtain ⟨p, q, hp, h1, hq, he⟩ := gc l hc
      exact ⟨p, q, hp, by omega, by omega, he⟩
    · obtain ⟨p, q, hp, h1, hq, he⟩ := gb l hc
      exact ⟨p, q, hp, by omega, by omega, he⟩
    · exact hc ▸ ⟨"END", n + 2, Or.inr (Or.inl rfl), by omega, by omega, rfl⟩
  · rw [hJT, hLN]
    intro t ht
    simp only [List.mem_append, List.mem_singleton] at ht ⊢
    rcases ht with ((hc | hc) | hc) | hc
    · exact Or.inl (Or.inl (Or.inr (tc t hc)))
    · exact Or.inr hc
    · exact Or.inl (Or.inr (tb t hc))
    · exact Or.inl (Or.inl (Or.inl hc))

/-- Inversion for a successful `Except` bind. -/
theorem exceptBind_eq_ok {α β : Type} {x : Except String α}
    {f : α → Except String β} {b : β} (h : (x >>= f) = .ok b) :
    ∃ a, x = .ok a ∧ f a = .ok b := by
  cases x with
  | error e => exact absurd h (by simp [exceptBind_error])
  | ok a => exact ⟨a, rfl, h⟩

/-- Appending a label-free, jump-free instruction preserves segment
well-formedness. -/
theorem GoodSeg.snoc_plain {n m : Nat} {Δ : List Instr} (hnm : n ≤ m)
    (hg : GoodSeg n m Δ) (i : Instr)
    (hl : labelNames [i] = []) (ht : jumpTargets [i] = []) :
    GoodSeg n m (Δ ++ [i]) :=
  hg.append hnm (Nat.le_refl m) (goodSeg_of_empty hl ht)

/-- Prepending a label-free, jump-free instruction preserves segment
well-formedness. -/
theorem GoodSeg.cons_plain {n m : Nat} {Δ : List Instr} (hnm : n ≤ m)
    (hg : GoodSeg n m Δ) (i : Instr)
    (hl : labelNames [i] = []) (ht : jumpTargets [i] = []) :
    GoodSeg n m ([i] ++ Δ) :=
  (goodSeg_of_empty hl ht).append (Nat.le_refl n) hnm hg

/-- Main compiler invariant: a successful `compile_form` (or
`compile_seq`) run moves the label counter monotonically and appends a
well-formed segment to the bytecode — its `LABEL` names are distinct
gensym names with ids in the counter's travel range, and its `JMP`/`JZ`
targets are among its own labels. -/
theorem compile_good : ∀ fuel : Nat,
    (∀ (s : CState) (x : Val) (s1 : CState), compile_form fuel s x = .ok s1 →
      s.label_id ≤ s1.label_id ∧
      ∃ Δ, s1.bc = s.bc ++ Δ ∧ GoodSeg s.label_id s1.label_id Δ) ∧
    (∀ (s : CState) (xs : List Val) (s1 : CState), compile_seq fuel s xs = .ok s1 →
      s.label_id ≤ s1.label_id ∧
      ∃ Δ, s1.bc = s.bc ++ Δ ∧ GoodSeg s.label_id s1.label_id Δ) := by
  intro fuel
  induction fuel with
  | zero =>
    constructor
    · intro s x s1 h
      exact absurd h (by simp [compile_form])
    · intro s xs s1 h
      cases xs with
      | nil =>
        obtain rfl : s = s1 := by injection h
        exact ⟨Nat.le_refl _, [], by simp, goodSeg_nil _⟩
      | cons x r => exact absurd h (by simp [compile_seq])
  | succ f ih =>
    obtain ⟨ihf, ihs⟩ := ih
    constructor
    · intro s x s1 h
      cases x with
      | int n =>
        obtain rfl : emit s (.push n) = s1 := by injection h
        exact ⟨Nat.le_refl _, [.push n], rfl, goodSeg_of_empty rfl rfl⟩
      | str t =>
        obtain rfl : emit s (.pushstr t) = s1 := by injection h
        exact ⟨Nat.le_refl _, [.pushstr t], rfl, goodSeg_of_empty rfl rfl⟩
      | sym v =>
        obtain rfl : emit s (.load v) = s1 := by injection h
        exact ⟨Nat.le_refl _, [.load v], rfl, goodSeg_of_empty rfl rfl⟩
      | list xs =>
        cases xs with
        | nil =>
          obtain rfl : emit s (.push 0) = s1 := by injection h
          exact ⟨Nat.le_refl _, [.push 0], rfl, goodSeg_of_empty rfl rfl⟩
        | cons op args =>
          cases op with
          | int n2 => simp [compile_form] at h
          | str t2 => simp [compile_form] at h
          | list l2 => simp [compile_form] at h
          | sym name =>
            simp only [compile_form, gensym] at h
            by_cases hb : name = "begin"
            · rw [if_pos hb] at h
              exact ihs s args s1 h
            · rw [if_neg hb] at h
              by_cases hif : name = "if"
              · rw [if_pos hif] at h
                rcases args with _ | ⟨cond, _ | ⟨thn, _ | ⟨els, _ | ⟨x4, rest⟩⟩⟩⟩
                · exact absurd h (by simp)
                · exact absurd h (by simp)
                · exact absurd h (by simp)
                · obtain ⟨s3, hc, h⟩ := exceptBind_eq_ok h
                  obtain ⟨s5, ht2, h⟩ := exceptBind_eq_ok h
                  obtain ⟨s8, he2, h⟩ := exceptBind_eq_ok h
                  obtain rfl : emit s8 (.label ("END" ++ Nat.repr (s.label_id + 1 + 1))) = s1 := by
                    injection h
                  obtain ⟨lec, Δc, hbc, hgc⟩ := ihf _ cond _ hc
                  obtain ⟨let2, Δt, hbt, hgt⟩ := ihf _ thn _ ht2
                  obtain ⟨lee, Δe, hbe, hge⟩ := ihf _ els _ he2
                  simp only [emit] at hbc hbt hbe let2 lee lec ⊢
                  refine ⟨by omega, Δc ++ [.jz ("ELSE" ++ Nat.repr (s.label_id + 1))] ++ Δt ++
                    [.jmp ("END" ++ Nat.repr (s.label_id + 1 + 1)),
                     .label ("ELSE" ++ Nat.repr (s.label_id + 1))] ++ Δe ++
                    [.label ("END" ++ Nat.repr (s.label_id + 1 + 1))], ?_, ?_⟩
                  · rw [hbe, hbt, hbc]
                    simp [List.append_assoc]
                  · exact goodSeg_if (by omega) (by omega) (by omega) hgc hgt hge
                · exact absurd h (by simp)
              · rw [if_neg hif] at h
                by_cases hls : name = "let" || name = "set"
                · rw [if_pos hls] at h
                  rcases args with _ | ⟨a1, _ | ⟨e1, _ | ⟨x3, rest⟩⟩⟩
                  · exact absurd h (by simp)
                  · exact absurd h (by simp)
                  · cases a1 with
                    | sym x0 =>
                      obtain ⟨s2, hse, h⟩ := exceptBind_eq_ok h
                      obtain rfl : emit s2 (.store x0) = s1 := by injection h
                      obtain ⟨le1, Δ1, hb1, hg1⟩ := ihf _ e1 _ hse
                      simp only [emit] at hb1 ⊢
                      refine ⟨le1, Δ1 ++ [.store x0], ?_, ?_⟩
                      · rw [hb1]; simp [List.append_assoc]
                      · exact hg1.snoc_plain le1 _ rfl rfl
                    | int n2 => exact absurd h (by simp)
                    | str t2 => exact absurd h (by simp)
                    | list l2 => exact absurd h (by simp)
                  · exact absurd h (by simp)
                · rw [if_neg hls] at h
                  by_cases hw : name = "while"
                  · rw [if_pos hw] at h
                    rcases args with _ | ⟨cond, _ | ⟨b1, brest⟩⟩
                    · exact absurd h (by simp)
                    · exact absurd h (by simp)
                    · obtain ⟨s4, hc, h⟩ := exceptBind_eq_ok h
                      obtain ⟨s6, hbdy, h⟩ := exceptBind_eq_ok h
                      obtain rfl : emit (emit (emit s6 (.jmp ("TOP" ++ Nat.repr (s.label_id + 1))))
                          (.label ("END" ++ Nat.repr (s.label_id + 1 + 1)))) (.push 0) = s1 := by
                        injection h
                      obtain ⟨lec, Δc, hbc, hgc⟩ := ihf _ cond _ hc
                      obtain ⟨leb, Δb, hbb, hgb⟩ := ihs _ (b1 :: brest) _ hbdy
                      simp only [emit] at hbc hbb lec leb ⊢
                      refine ⟨by omega, [Instr.label ("TOP" ++ Nat.repr (s.label_id + 1))] ++ Δc ++
                        [Instr.jz ("END" ++ Nat.repr (s.label_id + 1 + 1))] ++ Δb ++
                        [Instr.jmp ("TOP" ++ Nat.repr (s.label_id + 1)),
                         Instr.label ("END" ++ Nat.repr (s.label_id + 1 + 1)), Instr.push 0], ?_, ?_⟩
                      · rw [hbb, hbc]
                        simp [List.append_assoc]
                      · exact goodSeg_while (by omega) (by omega) hgc hgb
                  · rw [if_neg hw] at h
                    cases hbo : binOp name with
                    | some instr =>
                      rw [hbo] at h
                      rcases args with _ | ⟨a1, _ | ⟨a2, _ | ⟨x3, rest⟩⟩⟩
                      · exact absurd h (by simp)
                      · exact absurd h (by simp)
                      · obtain ⟨sa, ha, h⟩ := exceptBind_eq_ok h
                        obtain ⟨sb, hb2, h⟩ := exceptBind_eq_ok h
                        obtain rfl : emit sb instr = s1 := by injection h
                        obtain ⟨lea, Δa, hba, hga⟩ := ihf _ a1 _ ha
                        obtain ⟨leb, Δb, hbb, hgb⟩ := ihf _ a2 _ hb2
                        have hplain : labelNames [instr] = [] ∧ jumpTargets [instr] = [] := by
                          unfold binOp at hbo
                          repeat' split at hbo
                          all_goals first
                            | (cases hbo; exact ⟨rfl, rfl⟩)
                            | (exact absurd hbo (by simp))
                        simp only [emit] at hba hbb ⊢
                        refine ⟨by omega, Δa ++ Δb ++ [instr], ?_, ?_⟩
                        · rw [hbb, hba]; simp [List.append_assoc]
                        · exact ((hga.append lea leb hgb)).snoc_plain (by omega) _
                            hplain.1 hplain.2
                      · exact absurd h (by simp)
                    | none =>
                      rw [hbo] at h
                      by_cases hp : name = "print"
                      · rw [if_pos hp] at h
                        rcases args with _ | ⟨a1, _ | ⟨x2, rest⟩⟩
                        · exact absurd h (by simp)
                        · obtain ⟨sa, ha, h⟩ := exceptBind_eq_ok h
                          obtain rfl : emit (emit sa .print) (.push 0) = s1 := by injection h
                          obtain ⟨lea, Δa, hba, hga⟩ := ihf _ a1 _ ha
                          simp only [emit] at hba ⊢
                          refine ⟨lea, Δa ++ [.print, .push 0], ?_, ?_⟩
                          · rw [hba]; simp [List.append_assoc]
                          · have := (hga.snoc_plain lea Instr.print rfl rfl).snoc_plain lea
                              (Instr.push 0) rfl rfl
                            simpa [List.append_assoc] using this
                        · exact absurd h (by simp)
                      · rw [if_neg hp] at h
                        obtain ⟨sa, ha, h⟩ := exceptBind_eq_ok h
                        obtain ⟨lea, Δa, hba, hga⟩ := ihs _ args _ ha
                        by_cases hpr : name ∈ prim_set
                        · rw [if_pos hpr] at h
                          obtain rfl : emit sa (.callprim name args.length) = s1 := by injection h
                          simp only [emit] at hba ⊢
                          refine ⟨lea, Δa ++ [.callprim name args.length], ?_, ?_⟩
                          · rw [hba]; simp [List.append_assoc]
                          · exact hga.snoc_plain lea _ rfl rfl
                        · rw [if_neg hpr] at h
                          obtain rfl : emit sa (.call name args.length) = s1 := by injection h
                          simp only [emit] at hba ⊢
                          refine ⟨lea, Δa ++ [.call name args.length], ?_, ?_⟩
                          · rw [hba]; simp [List.append_assoc]
                          · exact hga.snoc_plain lea _ rfl rfl
    · intro s xs s1 h
      cases xs with
      | nil =>
        obtain rfl : s = s1 := by injection h
        exact ⟨Nat.le_refl _, [], by simp, goodSeg_nil _⟩
      | cons x r =>
        simp only [compile_seq] at h
        obtain ⟨s2, hx, hr⟩ := exceptBind_eq_ok h
        obtain ⟨le1, Δ1, hb1, hg1⟩ := ihf s x s2 hx
        obtain ⟨le2, Δ2, hb2, hg2⟩ := ihs s2 r s1 hr
        refine ⟨by omega, Δ1 ++ Δ2, ?_, hg1.append le1 le2 hg2⟩
        rw [hb2, hb1]
        simp [List.append_assoc]

/-- `compile_define` appends a `DEFUN` header, a well-formed body segment
and a `RET`, moving the label counter monotonically. -/
theorem compile_define_good (fuel : Nat) (s : CState) (form : Val) (s1 : CState)
    (h : compile_define fuel s form = .ok s1) :
    s.label_id ≤ s1.label_id ∧
    ∃ Δ, s1.bc = s.bc ++ Δ ∧ GoodSeg s.label_id s1.label_id Δ := by
  unfold compile_define at h
  split at h
  case h_2 => simp at h
  case h_1 x sig body =>
    split at h
    case h_2 => simp at h
    case h_1 fname ps =>
      obtain ⟨params, hps, h⟩ := exceptBind_eq_ok h
      obtain ⟨s2, hcf, h⟩ := exceptBind_eq_ok h
      obtain rfl : emit s2 .ret = s1 := by injection h
      obtain ⟨le1, Δb, hbb, hgb⟩ := (compile_good fuel).1 _ body _ hcf
      simp only [emit] at hbb le1 ⊢
      refine ⟨le1, [.defun fname params] ++ Δb ++ [.ret], ?_, ?_⟩
      · rw [hbb]
        simp [List.append_assoc]
      · exact (hgb.cons_plain le1 (.defun fname params) rfl rfl).snoc_plain le1 .ret rfl rfl

/-- Lifting the per-step invariant through `foldlM`. -/
theorem foldlM_good {g : CState → Val → Except String CState}
    (hg : ∀ (s : CState) (v : Val) (s1 : CState), g s v = .ok s1 →
      s.label_id ≤ s1.label_id ∧
      ∃ Δ, s1.bc = s.bc ++ Δ ∧ GoodSeg s.label_id s1.label_id Δ) :
    ∀ (vs : List Val) (s s1 : CState), vs.foldlM g s = .ok s1 →
      s.label_id ≤ s1.label_id ∧
      ∃ Δ, s1.bc = s.bc ++ Δ ∧ GoodSeg s.label_id s1.label_id Δ := by
  intro vs
  induction vs with
  | nil =>
    intro s s1 h
    simp only [List.foldlM_nil] at h
    obtain rfl : s = s1 := by injection h
    exact ⟨Nat.le_refl _, [], by simp, goodSeg_nil _⟩
  | cons v vs ih =>
    intro s s1 h
    simp only [List.foldlM_cons] at h
    obtain ⟨s2, h1, h2⟩ := exceptBind_eq_ok h
    obtain ⟨le1, Δ1, hb1, hg1⟩ := hg s v s2 h1
    obtain ⟨le2, Δ2, hb2, hg2⟩ := ih s2 s1 h2
    refine ⟨by omega, Δ1 ++ Δ2, ?_, hg1.append le1 le2 hg2⟩
    rw [hb2, hb1]
    simp [List.append_assoc]

/-- The whole emitted program has pairwise-distinct `LABEL` names and
every `JMP`/`JZ` target among them: the defines' and main segments use
gensym labels over disjoint counter ranges, distinct from the reserved
`__START__`, and the only extra jump — the initial `JMP __START__` —
targets the emitted `LABEL __START__`. -/
theorem compile_program_labels (fuel : Nat) (forms : List Val) (bc : List Instr)
    (h : compile_program fuel forms = .ok bc) :
    (labelNames bc).Nodup ∧ ∀ t ∈ jumpTargets bc, t ∈ labelNames bc := by
  unfold compile_program at h
  obtain ⟨sd, hd, h⟩ := exceptBind_eq_ok h
  obtain ⟨sr, hr, h⟩ := exceptBind_eq_ok h
  obtain rfl : (emit (emit sr (.push 0)) .ret).bc = bc := by injection h
  obtain ⟨led, Δd, hbd, hgd⟩ := foldlM_good (compile_define_good fuel) _ _ _ hd
  obtain ⟨ler, Δr, hbr, hgr⟩ :=
    foldlM_good (fun s v s1 h => (compile_good fuel).1 s v s1 h) _ _ _ hr
  simp only [emit, C_init] at hbd hbr led ler ⊢
  rw [hbr, hbd]
  have gd : ∀ l ∈ labelNames Δd, IsGen 0 sd.label_id l := hgd.2.1
  have gr : ∀ l ∈ labelNames Δr, IsGen sd.label_id sr.label_id l := hgr.2.1
  have hLN : labelNames
      ((([] ++ [Instr.jmp "__START__"] ++ Δd ++ [Instr.label "__START__"] ++ Δr) ++
          [Instr.push 0]) ++ [Instr.ret]) =
      labelNames Δd ++ ["__START__"] ++ labelNames Δr := by
    simp [labelNames_append, labelNames]
  have hJT : jumpTargets
      ((([] ++ [Instr.jmp "__START__"] ++ Δd ++ [Instr.label "__START__"] ++ Δr) ++
          [Instr.push 0]) ++ [Instr.ret]) =
      ["__START__"] ++ jumpTargets Δd ++ jumpTargets Δr := by
    simp [jumpTargets_append, jumpTargets]
  rw [show ([] : List Instr) ++ [Instr.jmp "__START__"] ++ Δd ++ [Instr.label "__START__"] ++ Δr ++
      [Instr.push 0] ++ [Instr.ret] =
      (([] ++ [Instr.jmp "__START__"] ++ Δd ++ [Instr.label "__START__"] ++ Δr) ++
        [Instr.push 0]) ++ [Instr.ret] from by simp [List.append_assoc]]
  rw [hLN, hJT]
  constructor
  · refine nodup_three hgd.1 (List.nodup_singleton _) hgr.1 ?_ ?_ ?_
    · intro x hx y hy
      rw [List.mem_singleton.mp hy]
      exact isGen_ne_start (gd x hx)
    · exact fun x hx y hy => isGen_ne (gd x hx) (gr y hy) (Nat.le_refl _)
    · intro x hx y hy
      rw [List.mem_singleton.mp hx]
      exact (isGen_ne_start (gr y hy)).symm
  · intro t ht
    simp only [List.mem_append, List.mem_singleton] at ht ⊢
    rcases ht with (hc | hc) | hc
    · exact Or.inl (Or.inr hc)
    · exact Or.inl (Or.inl (hgd.2.2 t hc))
    · exact Or.inr (hgr.2.2 t hc)

/-- C7: for every source that compiles successfully, the emitted bytecode
contains no two `LABEL` instructions with the same name, and every
`JMP`/`JZ` target appears as a `LABEL` in the same bytecode. -/
theorem c7_label_uniqueness_and_targets (src : String) (bc : List Instr)
    (h : compileSrc src = .ok bc) :
    (labelNames bc).Nodup ∧ ∀ t ∈ jumpTargets bc, t ∈ labelNames bc := by
  unfold compileSrc at h
  obtain ⟨toks, h1, h⟩ := exceptBind_eq_ok h
  obtain ⟨forms, h2, h⟩ := exceptBind_eq_ok h
  exact compile_program_labels _ _ _ h

/-- Witness for C7 on a source whose compilation emits gensym labels. -/
theorem c7_label_uniqueness_and_targets_witness :
    ∃ bc, compileSrc "(if 1 2 3)" = .ok bc ∧
      (labelNames bc).Nodup ∧ ∀ t ∈ jumpTargets bc, t ∈ labelNames bc :=
  ⟨_, rfl, c7_label_uniqueness_and_targets "(if 1 2 3)" _ rfl⟩
